import Mathlib

/-!
Verification development for the asynchronix / nexosim discrete-event
simulation framework.

Pure functions from the sources are embedded directly; stateful and
concurrent parts (mailboxes, the scheduler queue, the simulation loop)
are embedded as explicit state-passing functions.  Components of the
repository that are only referenced from the sources at hand (the
scheduler queue, the key registry, the simulation loop, the channel
internals) are modelled from the specification, as indicated in the
corresponding doc comments.
-/

namespace Nexosim

/-! ### Blocking event queue (ports/sink/blocking_event_queue.rs) -/

/-- Modelled from the spec: the state of the underlying unbounded mpsc
channel used by `BlockingEventQueue` (the channel implementation is not
part of the sources at hand).  `buffer` is the FIFO of sent events,
`senderCount` the number of live writer handles, `receiverAlive` whether
the reader handle still exists. -/
structure ChannelState (T : Type) where
  buffer : List T
  senderCount : Nat
  receiverAlive : Bool
deriving Repr, DecidableEq

/-- Modelled from the spec: sending on the channel succeeds (appends to the
FIFO) exactly when the receiver is still alive; otherwise it fails and the
channel is unchanged.  The returned boolean reports success. -/
def ChannelState.send {T : Type} (c : ChannelState T) (v : T) : Bool × ChannelState T :=
  if c.receiverAlive then (true, { c with buffer := c.buffer ++ [v] }) else (false, c)

/-- Modelled from the spec: one receive attempt on the channel.
`some (some v, c)` means a value was received, `some (none, c)` means the
channel reported disconnection (no buffered value and no live sender), and
`none` means the call would block (no buffered value but live senders). -/
def ChannelState.recvStep {T : Type} (c : ChannelState T) : Option (Option T × ChannelState T) :=
  match c.buffer with
  | v :: rest => some (some v, { c with buffer := rest })
  | [] => if c.senderCount = 0 then some (none, c) else none

/-- State of a `BlockingEventQueue` together with its writer/reader handles:
the shared `is_open` atomic flag and the shared channel. -/
structure BlockingQueueModel (T : Type) where
  is_open : Bool
  chan : ChannelState T
deriving Repr, DecidableEq

/-- Embeds `BlockingEventQueue::new_with_state`: a fresh channel in the
given open/closed state (one writer handle, reader alive). -/
def new_with_state (T : Type) (is_open : Bool) : BlockingQueueModel T :=
  ⟨is_open, ⟨[], 1, true⟩⟩

/-- Embeds `BlockingEventQueue::new`: an open queue. -/
def BlockingQueueModel.new (T : Type) : BlockingQueueModel T :=
  new_with_state T true

/-- Embeds `BlockingEventQueue::new_closed`: a closed queue. -/
def BlockingQueueModel.new_closed (T : Type) : BlockingQueueModel T :=
  new_with_state T false

/-- Embeds `BlockingEventQueueWriter::write`: if the `is_open` flag is
false the event is discarded; otherwise the event is sent on the channel
and any sending failure is ignored. -/
def BlockingQueueModel.write {T : Type} (q : BlockingQueueModel T) (event : T) :
    BlockingQueueModel T :=
  if !q.is_open then q
  else { q with chan := (q.chan.send event).2 }

/-- Embeds `<BlockingEventQueueReader as Iterator>::next`: receive from the
channel, mapping a received event to `some event` and disconnection to
`none`.  The outer `none` stands for a still-blocked call. -/
def BlockingQueueModel.next {T : Type} (q : BlockingQueueModel T) :
    Option (Option T × BlockingQueueModel T) :=
  match q.chan.recvStep with
  | some (some v, c) => some (some v, { q with chan := c })
  | some (none, c) => some (none, { q with chan := c })
  | none => none

/-- Embeds `<BlockingEventQueueReader as EventSinkStream>::open`. -/
def BlockingQueueModel.openStream {T : Type} (q : BlockingQueueModel T) : BlockingQueueModel T :=
  { q with is_open := true }

/-- Embeds `<BlockingEventQueueReader as EventSinkStream>::close`. -/
def BlockingQueueModel.closeStream {T : Type} (q : BlockingQueueModel T) : BlockingQueueModel T :=
  { q with is_open := false }

/-- Dropping the reader handle: the receiver side of the channel dies. -/
def BlockingQueueModel.dropReader {T : Type} (q : BlockingQueueModel T) : BlockingQueueModel T :=
  { q with chan := { q.chan with receiverAlive := false } }

/-- A sequence of writes through a writer handle. -/
def writeAll {T : Type} (q : BlockingQueueModel T) (es : List T) : BlockingQueueModel T :=
  es.foldl BlockingQueueModel.write q

/-- Iterate the reader's `next` up to `fuel` times, collecting the
events it yields, stopping at disconnection or at a blocked call. -/
def readAll {T : Type} : Nat → BlockingQueueModel T → List T
  | 0, _ => []
  | fuel + 1, q =>
    match q.next with
    | some (some v, q') => v :: readAll fuel q'
    | _ => []

lemma writeAll_open_alive {T : Type} (es : List T) :
    ∀ (b : List T) (w : Nat),
      writeAll ⟨true, ⟨b, w, true⟩⟩ es = ⟨true, ⟨b ++ es, w, true⟩⟩ := by
  induction es with
  | nil => intro b w; simp [writeAll]
  | cons e es ih =>
    intro b w
    have hstep : BlockingQueueModel.write (T := T) ⟨true, ⟨b, w, true⟩⟩ e
        = ⟨true, ⟨b ++ [e], w, true⟩⟩ := by
      simp [BlockingQueueModel.write, ChannelState.send]
    simp only [writeAll, List.foldl_cons] at *
    rw [hstep, ih (b ++ [e]) w]
    simp

lemma readAll_buffer {T : Type} (b : List T) :
    ∀ (w : Nat) (o : Bool) (r : Bool),
      readAll b.length ⟨o, ⟨b, w, r⟩⟩ = b := by
  induction b with
  | nil => intro w o r; simp [readAll]
  | cons v rest ih =>
    intro w o r
    simp [readAll, BlockingQueueModel.next, ChannelState.recvStep, ih w o r]

/-- C6: the blocking reader of a `BlockingEventQueue` yields every event
enqueued on the channel in FIFO order; a call to `next` returns `None`
exactly when the buffer has been drained and every writer handle has been
dropped, and blocks (yields nothing yet) exactly when the buffer is empty
while writers are still alive — so `next` blocks until an event is
available and only ever returns `None` once all writers are gone. -/
theorem blocking_queue_reader_fifo (T : Type) (es : List T) (w : Nat)
    (q : Nexosim.BlockingQueueModel T) :
    readAll es.length (writeAll ⟨true, ⟨[], w, true⟩⟩ es) = es
    ∧ (q.next = some (none, q) ↔ q.chan.buffer = [] ∧ q.chan.senderCount = 0)
    ∧ (q.next = none ↔ q.chan.buffer = [] ∧ q.chan.senderCount ≠ 0) := by
  refine ⟨?_, ?_, ?_⟩
  · rw [writeAll_open_alive es [] w]
    simpa using readAll_buffer es w true true
  · obtain ⟨o, ⟨b, sc, r⟩⟩ := q
    cases b with
    | nil =>
      by_cases h : sc = 0 <;>
        simp [Nexosim.BlockingQueueModel.next, ChannelState.recvStep, h]
    | cons v rest =>
      simp [Nexosim.BlockingQueueModel.next, ChannelState.recvStep]
  · obtain ⟨o, ⟨b, sc, r⟩⟩ := q
    cases b with
    | nil =>
      by_cases h : sc = 0 <;>
        simp [Nexosim.BlockingQueueModel.next, ChannelState.recvStep, h]
    | cons v rest =>
      simp [Nexosim.BlockingQueueModel.next, ChannelState.recvStep]

/-- C9: `BlockingEventQueueWriter::write` on a queue whose `is_open` flag
is false leaves the whole state untouched (the event is silently
discarded and, being total, the function reports no error); a queue
created with `new_closed` has the flag down, so any sequence of writes
on it is discarded until the reader's `open` raises the flag, after which
writes reach the buffer again; and when the reader has been dropped a
write likewise leaves the buffer unchanged. -/
theorem write_discarded_when_closed (T : Type) (q : Nexosim.BlockingQueueModel T)
    (e : T) (es : List T) :
    (q.is_open = false → q.write e = q)
    ∧ (Nexosim.BlockingQueueModel.new_closed T).is_open = false
    ∧ writeAll (Nexosim.BlockingQueueModel.new_closed T) es
        = Nexosim.BlockingQueueModel.new_closed T
    ∧ (((Nexosim.BlockingQueueModel.new_closed T).openStream).write e).chan.buffer = [e]
    ∧ (q.chan.receiverAlive = false → (q.write e).chan.buffer = q.chan.buffer) := by
  refine ⟨?_, rfl, ?_, ?_, ?_⟩
  · intro h
    simp [Nexosim.BlockingQueueModel.write, h]
  · induction es with
    | nil => rfl
    | cons x xs ih =>
      have hw : (Nexosim.BlockingQueueModel.new_closed T).write x
          = Nexosim.BlockingQueueModel.new_closed T := by
        simp [Nexosim.BlockingQueueModel.write, Nexosim.BlockingQueueModel.new_closed,
          new_with_state]
      simpa [writeAll, hw] using ih
  · simp [Nexosim.BlockingQueueModel.write, Nexosim.BlockingQueueModel.openStream,
      Nexosim.BlockingQueueModel.new_closed, new_with_state, ChannelState.send]
  · intro h
    by_cases ho : q.is_open <;>
      simp [Nexosim.BlockingQueueModel.write, ChannelState.send, h, ho]

/-- Concrete witness for the closed-queue discard behavior. -/
theorem write_discarded_when_closed_witness :
    ((Nexosim.BlockingQueueModel.new_closed Nat).closeStream).is_open = false
    ∧ ((Nexosim.BlockingQueueModel.new_closed Nat).closeStream).write 5
        = (Nexosim.BlockingQueueModel.new_closed Nat).closeStream
    ∧ ((⟨true, ⟨[], 1, false⟩⟩ : Nexosim.BlockingQueueModel Nat).write 5).chan.buffer
        = (⟨true, ⟨[], 1, false⟩⟩ : Nexosim.BlockingQueueModel Nat).chan.buffer :=
  ⟨rfl,
   (write_discarded_when_closed Nat ((Nexosim.BlockingQueueModel.new_closed Nat).closeStream)
      5 []).1 rfl,
   (write_discarded_when_closed Nat (⟨true, ⟨[], 1, false⟩⟩ : Nexosim.BlockingQueueModel Nat)
      5 []).2.2.2.2 rfl⟩

/-! ### Input-function wrappers (asynchronix model/model_fn.rs) -/

/-- The future returned by an `InputFn::call`: either `std::future::Ready`
(`ready(())`, no remaining work) or a pending task whose driving applies
an effect to the model. -/
inductive EmbFuture (M : Type) where
  | ready : EmbFuture M
  | task : (M → M) → EmbFuture M

/-- Driving a returned future to completion on the executor. -/
def EmbFuture.drive {M : Type} : EmbFuture M → M → M
  | .ready, m => m
  | .task f, m => f m

/-- The observable outcome of an `InputFn::call`: the model state when
`call` returns, and the future it hands back to the executor. -/
structure CallOutcome (M : Type) where
  model : M
  fut : EmbFuture M

/-- Embeds `InputFn<'a, M, (), markers::WithoutArguments>::call`
(a synchronous `FnOnce(&mut M)`): run `self(model)`, return `ready(())`. -/
def callWithoutArguments {M S : Type} (f : M → M) (m : M) (_arg : Unit) (_sched : S) :
    CallOutcome M :=
  ⟨f m, .ready⟩

/-- Embeds `InputFn<'a, M, T, markers::WithoutScheduler>::call`
(a synchronous `FnOnce(&mut M, T)`): run `self(model, arg)`, return `ready(())`. -/
def callWithoutScheduler {M T S : Type} (f : M → T → M) (m : M) (arg : T) (_sched : S) :
    CallOutcome M :=
  ⟨f m arg, .ready⟩

/-- Embeds `InputFn<'a, M, T, markers::WithScheduler>::call`
(a synchronous `FnOnce(&mut M, T, &Scheduler<M>)`): run
`self(model, arg, scheduler)`, return `ready(())`. -/
def callWithScheduler {M T S : Type} (f : M → T → S → M) (m : M) (arg : T) (sched : S) :
    CallOutcome M :=
  ⟨f m arg sched, .ready⟩

/-- Embeds `InputFn<'a, M, (), markers::AsyncWithoutArguments>::call`:
return the future `self(model)`; the model is untouched until the future
is driven.  `f` is identified with the total effect of driving its
future. -/
def callAsyncWithoutArguments {M S : Type} (f : M → M) (m : M) (_arg : Unit) (_sched : S) :
    CallOutcome M :=
  ⟨m, .task f⟩

/-- Embeds `InputFn<'a, M, T, markers::AsyncWithoutScheduler>::call`:
return the future `self(model, arg)`. -/
def callAsyncWithoutScheduler {M T S : Type} (f : M → T → M) (m : M) (arg : T) (_sched : S) :
    CallOutcome M :=
  ⟨m, .task (fun mm => f mm arg)⟩

/-- Embeds `InputFn<'a, M, T, markers::AsyncWithScheduler>::call`:
return the future `self(model, arg, scheduler)`. -/
def callAsyncWithScheduler {M T S : Type} (f : M → T → S → M) (m : M) (arg : T) (sched : S) :
    CallOutcome M :=
  ⟨m, .task (fun mm => f mm arg sched)⟩

/-- C8: for each of the six recognized `InputFn` signature variants, the
erased wrapper's `call(model, arg, scheduler)` is behaviorally equal to
invoking the wrapped function directly: once the returned future has been
driven, the model state is exactly one direct application of the function
to the given model, argument and scheduler (since the function is
universally quantified, this equality also rules out zero or repeated
invocations), and the synchronous variants have already run the function
when `call` returns, handing back the ready future. -/
theorem input_fn_call_equiv (M T S : Type) (f0 : M → M) (f1 : M → T → M)
    (f2 : M → T → S → M) (m : M) (a : T) (sc : S) :
    ((callWithoutArguments f0 m () sc).fut.drive (callWithoutArguments f0 m () sc).model = f0 m
      ∧ (callWithoutArguments f0 m () sc).model = f0 m
      ∧ (callWithoutArguments f0 m () sc).fut = .ready)
    ∧ ((callWithoutScheduler f1 m a sc).fut.drive (callWithoutScheduler f1 m a sc).model = f1 m a
      ∧ (callWithoutScheduler f1 m a sc).model = f1 m a
      ∧ (callWithoutScheduler f1 m a sc).fut = .ready)
    ∧ ((callWithScheduler f2 m a sc).fut.drive (callWithScheduler f2 m a sc).model = f2 m a sc
      ∧ (callWithScheduler f2 m a sc).model = f2 m a sc
      ∧ (callWithScheduler f2 m a sc).fut = .ready)
    ∧ ((callAsyncWithoutArguments f0 m () sc).fut.drive
          (callAsyncWithoutArguments f0 m () sc).model = f0 m
      ∧ (callAsyncWithoutArguments f0 m () sc).model = m)
    ∧ ((callAsyncWithoutScheduler f1 m a sc).fut.drive
          (callAsyncWithoutScheduler f1 m a sc).model = f1 m a
      ∧ (callAsyncWithoutScheduler f1 m a sc).model = m)
    ∧ ((callAsyncWithScheduler f2 m a sc).fut.drive
          (callAsyncWithScheduler f2 m a sc).model = f2 m a sc
      ∧ (callAsyncWithScheduler f2 m a sc).model = m) :=
  ⟨⟨rfl, rfl, rfl⟩, ⟨rfl, rfl, rfl⟩, ⟨rfl, rfl, rfl⟩, ⟨rfl, rfl⟩, ⟨rfl, rfl⟩, ⟨rfl, rfl⟩⟩

/-! ### Causal message delivery (spec §5, channel/executor sources absent) -/

/-- Modelled from the spec: a message event as stamped by the runtime
(the channel and executor sources are not at hand).  Per §5, every send
is stamped with a globally increasing sequence number at enqueue time;
`target` is the receiving model and `msg` identifies the message. -/
structure MsgEv where
  seq : Nat
  target : Nat
  msg : Nat
deriving Repr, DecidableEq

/-- Ordering of message events by their stamped sequence number. -/
def seqLe (a b : MsgEv) : Prop := a.seq ≤ b.seq

instance : DecidableRel seqLe := fun a b => Nat.decLe a.seq b.seq

instance : IsTotal MsgEv seqLe := ⟨fun a b => Nat.le_total a.seq b.seq⟩

instance : IsTrans MsgEv seqLe := ⟨fun _ _ _ h h' => Nat.le_trans h h'⟩

/-- Modelled from the spec: the order in which a model processes its
messages.  The argument list is the mailbox arrival order produced by an
arbitrary worker-thread interleaving; per §4.2 and §5 the processing
order of a mailbox is determined solely by the stamped global sequence,
so delivery sorts the arrivals destined to the model by `seq`. -/
def deliveryOrder (b : Nat) (arrivals : List MsgEv) : List MsgEv :=
  (arrivals.filter (fun e => e.target == b)).insertionSort seqLe

lemma chain_lt_head_last : ∀ (cs : List Nat) (a b : Nat),
    List.Chain' (· < ·) (a :: cs ++ [b]) → a < b := by
  intro cs
  induction cs with
  | nil =>
    intro a b h
    exact List.chain'_pair.mp h
  | cons c cs ih =>
    intro a b h
    simp only [List.cons_append, List.chain'_cons] at h
    exact Nat.lt_trans h.1 (ih c b h.2)

/-- C1: causal transitivity of message delivery.  Model A stamps m1 (for
B) before m2 (for C), so `e1.seq < s2`; model C, while handling m2,
directly or transitively emits m3 for B, witnessed by a strictly
increasing stamping chain from `s2` to `e3.seq` (per §5 any send
performed during the handling of a message carries a strictly greater
sequence).  Then for every mailbox arrival order of B — i.e. regardless
of worker-thread interleaving — B processes m1 strictly before m3. -/
theorem causal_transitivity_delivery (arrivals : List MsgEv) (b : Nat)
    (e1 e3 : MsgEv) (s2 : Nat) (cs : List Nat)
    (h1 : e1 ∈ arrivals) (h1b : e1.target = b)
    (h3 : e3 ∈ arrivals) (h3b : e3.target = b)
    (hA : e1.seq < s2)
    (hchain : List.Chain' (· < ·) (s2 :: cs ++ [e3.seq])) :
    ∃ i j : Fin (deliveryOrder b arrivals).length,
      (i : Nat) < (j : Nat)
      ∧ (deliveryOrder b arrivals).get i = e1
      ∧ (deliveryOrder b arrivals).get j = e3 := by
  have h13 : e1.seq < e3.seq := Nat.lt_trans hA (chain_lt_head_last cs s2 e3.seq hchain)
  have hsorted : (deliveryOrder b arrivals).Sorted seqLe :=
    List.sorted_insertionSort seqLe _
  have hmem1 : e1 ∈ deliveryOrder b arrivals := by
    unfold deliveryOrder
    rw [List.mem_insertionSort, List.mem_filter]
    exact ⟨h1, by simp [h1b]⟩
  have hmem3 : e3 ∈ deliveryOrder b arrivals := by
    unfold deliveryOrder
    rw [List.mem_insertionSort, List.mem_filter]
    exact ⟨h3, by simp [h3b]⟩
  obtain ⟨i, hi⟩ := List.get_of_mem hmem1
  obtain ⟨j, hj⟩ := List.get_of_mem hmem3
  refine ⟨i, j, ?_, hi, hj⟩
  rcases Nat.lt_trichotomy (i : Nat) (j : Nat) with h | h | h
  · exact h
  · exfalso
    have : e1 = e3 := by
      rw [← hi, ← hj]
      congr 1
      exact Fin.ext h
    exact absurd (congrArg MsgEv.seq this) (Nat.ne_of_lt h13)
  · exfalso
    have hle : seqLe ((deliveryOrder b arrivals).get j) ((deliveryOrder b arrivals).get i) :=
      hsorted.rel_get_of_lt h
    rw [hi, hj] at hle
    exact absurd hle (Nat.not_le.mpr h13)

/-- Concrete witness: arrivals where m3 (seq 5) reaches B's mailbox ahead
of m1 (seq 1) under some interleaving; delivery still processes m1 first. -/
theorem causal_transitivity_delivery_witness :
    ∃ i j : Fin (deliveryOrder 0 [⟨5, 0, 30⟩, ⟨1, 0, 10⟩]).length,
      (i : Nat) < (j : Nat)
      ∧ (deliveryOrder 0 [⟨5, 0, 30⟩, ⟨1, 0, 10⟩]).get i = ⟨1, 0, 10⟩
      ∧ (deliveryOrder 0 [⟨5, 0, 30⟩, ⟨1, 0, 10⟩]).get j = ⟨5, 0, 30⟩ :=
  causal_transitivity_delivery [⟨5, 0, 30⟩, ⟨1, 0, 10⟩] 0 ⟨1, 0, 10⟩ ⟨5, 0, 30⟩ 3 []
    (by simp) rfl (by simp) rfl (by decide)
    (by simp [List.chain'_pair])

/-! ### Scheduler queue (spec §4.1; the queue sources are absent) -/

/-- Modelled from the spec: a scheduler queue entry
`(deadline, insertion_seq, cancel_flag_ref, action)`; `keyId` identifies
the shared cancel flag of a keyed entry, `period` is present for
periodic entries and `actId` identifies the erased action. -/
structure SchedEntry where
  deadline : Nat
  seq : Nat
  keyId : Option Nat
  period : Option Nat
  actId : Nat
deriving Repr, DecidableEq

/-- Lexicographic `(deadline, insertion_seq)` order of entries. -/
def entryLe (a b : SchedEntry) : Bool :=
  a.deadline < b.deadline || (a.deadline == b.deadline && a.seq ≤ b.seq)

/-- Ordered insertion into the entry list kept sorted by
`(deadline, insertion_seq)`. -/
def insertEntry (e : SchedEntry) : List SchedEntry → List SchedEntry
  | [] => [e]
  | f :: rest => if entryLe e f then e :: f :: rest else f :: insertEntry e rest

/-- Modelled from the spec: the priority queue of deferred actions, with a
monotonic counter supplying a fresh `insertion_seq` to every insertion. -/
structure SchedQueue where
  entries : List SchedEntry
  nextSeq : Nat
deriving Repr, DecidableEq

/-- Insertion of an action, drawing the next insertion sequence. -/
def SchedQueue.schedule (q : SchedQueue) (deadline : Nat) (keyId : Option Nat)
    (period : Option Nat) (actId : Nat) : SchedQueue :=
  ⟨insertEntry ⟨deadline, q.nextSeq, keyId, period, actId⟩ q.entries, q.nextSeq + 1⟩

/-- `pop_next`: removes and returns the minimum entry. -/
def SchedQueue.pop_next (q : SchedQueue) : Option (SchedEntry × SchedQueue) :=
  match q.entries with
  | [] => none
  | e :: rest => some (e, ⟨rest, q.nextSeq⟩)

/-- Whether the cancel flag identified by a key id has been set. -/
def keyCancelled (cancelled : List Nat) : Option Nat → Bool
  | none => false
  | some k => cancelled.contains k

/-- Modelled from the spec: popping and running the queue for `n` pops.
On pop, a cancelled action is dropped; a live action is dispatched, and a
periodic one is re-inserted at `deadline + period` with a fresh
`insertion_seq` and the same cancel flag.  Returns the dispatched
entries in order. -/
def runQueue (cancelled : List Nat) : Nat → SchedQueue → List SchedEntry
  | 0, _ => []
  | n + 1, q =>
    match q.pop_next with
    | none => []
    | some (e, q') =>
      if keyCancelled cancelled e.keyId then runQueue cancelled n q'
      else
        match e.period with
        | none => e :: runQueue cancelled n q'
        | some p => e :: runQueue cancelled n (q'.schedule (e.deadline + p) e.keyId (some p) e.actId)

/-- Scheduler-level errors of the schedule family (spec §7). -/
inductive SchedulingError where
  | deadlineInPast
  | invalidPeriod
deriving Repr, DecidableEq

/-- Modelled from the spec: the scheduler's view of the queue together
with the current virtual time. -/
structure SchedulerState where
  now : Nat
  queue : SchedQueue
deriving Repr, DecidableEq

/-- Modelled from the spec: `schedule(deadline, action)` — fails with
`DeadlineInPast` if `deadline < current_time`; same-time scheduling is
allowed and inserts the action. -/
def SchedulerState.schedule (s : SchedulerState) (deadline : Nat) (keyId : Option Nat)
    (period : Option Nat) (actId : Nat) : Except SchedulingError SchedulerState :=
  if deadline < s.now then .error .deadlineInPast
  else .ok { s with queue := s.queue.schedule deadline keyId period actId }

/-- Modelled from the spec: `schedule_periodic(t0, Δ, f)` — requires a
strictly positive period, then inserts a periodic entry at `t0`. -/
def schedule_periodic (s : SchedulerState) (t0 p : Nat) (keyId : Option Nat)
    (actId : Nat) : Except SchedulingError SchedulerState :=
  if p = 0 then .error .invalidPeriod
  else if t0 < s.now then .error .deadlineInPast
  else .ok { s with queue := s.queue.schedule t0 keyId (some p) actId }

/-- C4: `schedule(deadline, action)` fails with `DeadlineInPast` exactly
when the deadline lies strictly before the current simulation time;
whenever `current_time ≤ deadline` — in particular for a deadline equal
to the current time — the call succeeds and enqueues the action. -/
theorem schedule_deadline_in_past_iff (s : SchedulerState) (d : Nat)
    (k p : Option Nat) (a : Nat) :
    (s.schedule d k p a = .error .deadlineInPast ↔ d < s.now)
    ∧ (s.now ≤ d →
        s.schedule d k p a = .ok { s with queue := s.queue.schedule d k p a }) := by
  constructor
  · constructor
    · intro h
      by_contra hlt
      simp [SchedulerState.schedule, hlt] at h
    · intro h
      simp [SchedulerState.schedule, h]
  · intro h
    simp [SchedulerState.schedule, Nat.not_lt.mpr h]

/-- Concrete witness: scheduling at a deadline equal to the current time
(5) succeeds, and a deadline of 4 is rejected with `DeadlineInPast`. -/
theorem schedule_deadline_in_past_witness :
    (5:Nat) ≤ 5
    ∧ SchedulerState.schedule ⟨5, ⟨[], 0⟩⟩ 5 none none 7
        = .ok ⟨5, ⟨[⟨5, 0, none, none, 7⟩], 1⟩⟩
    ∧ SchedulerState.schedule ⟨5, ⟨[], 0⟩⟩ 4 none none 7
        = .error .deadlineInPast :=
  ⟨Nat.le_refl 5,
   (schedule_deadline_in_past_iff ⟨5, ⟨[], 0⟩⟩ 5 none none 7).2 (Nat.le_refl 5),
   (schedule_deadline_in_past_iff ⟨5, ⟨[], 0⟩⟩ 4 none none 7).1.mpr (by decide)⟩

lemma runQueue_periodic_single (c : List Nat) (k : Option Nat)
    (hk : keyCancelled c k = false) (p a : Nat) :
    ∀ (n d s ns : Nat),
      (runQueue c n ⟨[⟨d, s, k, some p, a⟩], ns⟩).map SchedEntry.deadline
        = (List.range n).map (fun i => d + i * p) := by
  intro n
  induction n with
  | zero => intro d s ns; simp [runQueue]
  | succ n ih =>
    intro d s ns
    have hstep : runQueue c (n + 1) ⟨[⟨d, s, k, some p, a⟩], ns⟩
        = ⟨d, s, k, some p, a⟩ :: runQueue c n ⟨[⟨d + p, ns, k, some p, a⟩], ns + 1⟩ := by
      simp [runQueue, SchedQueue.pop_next, hk, SchedQueue.schedule, insertEntry]
    rw [hstep, List.map_cons, ih (d + p) ns (ns + 1),
      List.range_succ_eq_map, List.map_cons, List.map_map]
    refine congrArg₂ _ (by simp) (List.map_congr_left ?_)
    intro i _
    simp [Function.comp, Nat.succ_mul]
    omega

/-- C2: drift-free periodic scheduling.  Starting from
`schedule_periodic(t0, p, f)` with a strictly positive period and an
uncancelled key, the first `n` pops of the scheduler queue dispatch the
action at exactly the deadlines `t0 + k·p` for `k = 0, …, n-1`, one
dispatch per deadline (the deadline list has no duplicates): each
re-insertion is computed as the previous deadline plus the period, in
virtual time, so no drift accumulates. -/
theorem schedule_periodic_drift_free (s0 : SchedulerState) (t0 p a n : Nat)
    (k : Option Nat) (c : List Nat) (s1 : SchedulerState)
    (hp : 0 < p) (hk : keyCancelled c k = false)
    (hstart : s0.queue.entries = []) (hsched : schedule_periodic s0 t0 p k a = .ok s1)
    (ht0 : s0.now ≤ t0) :
    ((runQueue c n s1.queue).map SchedEntry.deadline
        = (List.range n).map (fun i => t0 + i * p))
    ∧ ((runQueue c n s1.queue).map SchedEntry.deadline).Nodup := by
  have hq : s1.queue = ⟨[⟨t0, s0.queue.nextSeq, k, some p, a⟩], s0.queue.nextSeq + 1⟩ := by
    have hnp : ¬ p = 0 := Nat.pos_iff_ne_zero.mp hp
    have hnt : ¬ t0 < s0.now := Nat.not_lt.mpr ht0
    simp only [schedule_periodic, hnp, if_false, hnt, Except.ok.injEq] at hsched
    rw [← hsched]
    simp [SchedQueue.schedule, hstart, insertEntry]
  have hmap : (runQueue c n s1.queue).map SchedEntry.deadline
      = (List.range n).map (fun i => t0 + i * p) := by
    rw [hq]
    exact runQueue_periodic_single c k hk p a n t0 s0.queue.nextSeq (s0.queue.nextSeq + 1)
  refine ⟨hmap, ?_⟩
  rw [hmap]
  refine List.Nodup.map ?_ (List.nodup_range n)
  intro i j hij
  dsimp only at hij
  have h2 : i * p = j * p := by omega
  exact Nat.eq_of_mul_eq_mul_right hp h2

/-- Concrete witness: a periodic action with period 7 starting at 10
dispatches at 10, 17, 24 over the first three pops. -/
theorem schedule_periodic_drift_free_witness :
    0 < 7
    ∧ keyCancelled [] none = false
    ∧ (SchedulerState.mk 0 ⟨[], 0⟩).queue.entries = []
    ∧ schedule_periodic ⟨0, ⟨[], 0⟩⟩ 10 7 none 3
        = .ok ⟨0, ⟨[⟨10, 0, none, some 7, 3⟩], 1⟩⟩
    ∧ ((runQueue [] 3 (SchedulerState.mk 0 ⟨[⟨10, 0, none, some 7, 3⟩], 1⟩).queue).map
          SchedEntry.deadline = (List.range 3).map (fun i => 10 + i * 7)
        ∧ ((runQueue [] 3 (SchedulerState.mk 0
            ⟨[⟨10, 0, none, some 7, 3⟩], 1⟩).queue).map SchedEntry.deadline).Nodup) :=
  ⟨by decide, rfl, rfl, rfl,
   schedule_periodic_drift_free ⟨0, ⟨[], 0⟩⟩ 10 7 3 3 none []
     ⟨0, ⟨[⟨10, 0, none, some 7, 3⟩], 1⟩⟩ (by decide) rfl rfl rfl (by decide)⟩

lemma runQueue_not_cancelled (c : List Nat) :
    ∀ (n : Nat) (q : SchedQueue) (e : SchedEntry),
      e ∈ runQueue c n q → keyCancelled c e.keyId = false := by
  intro n
  induction n with
  | zero => intro q e h; simp [runQueue] at h
  | succ n ih =>
    intro q e h
    obtain ⟨ents, ns⟩ := q
    cases ents with
    | nil => simp [runQueue, SchedQueue.pop_next] at h
    | cons f rest =>
      rw [runQueue] at h
      simp only [SchedQueue.pop_next] at h
      by_cases hc : keyCancelled c f.keyId = true
      · rw [if_pos hc] at h
        exact ih _ e h
      · rw [if_neg hc] at h
        have hcf : keyCancelled c f.keyId = false := by simpa using hc
        cases hper : f.period with
        | none =>
          rw [hper] at h
          rcases List.mem_cons.mp h with rfl | h'
          · exact hcf
          · exact ih _ e h'
        | some p =>
          rw [hper] at h
          rcases List.mem_cons.mp h with rfl | h'
          · exact hcf
          · exact ih _ e h'

/-- C7: once a key's cancel flag is set before its entry is popped, the
associated action is never dispatched in any number of subsequent pops of
the scheduler queue: entries carrying the cancelled flag (including the
re-insertions of a periodic entry, which share the flag) remain in the
queue but are dropped when popped, so their closure never runs. -/
theorem cancel_prevents_dispatch (c : List Nat) (k : Nat) (hk : k ∈ c)
    (n : Nat) (q : SchedQueue) :
    ∀ e ∈ runQueue c n q, e.keyId ≠ some k := by
  intro e he hkey
  have h := runQueue_not_cancelled c n q e he
  rw [hkey] at h
  simp [keyCancelled] at h
  exact h hk

/-- Concrete witness: with key 1 cancelled, a queue holding a keyed entry
for key 1 and an anonymous entry never dispatches the keyed action. -/
theorem cancel_prevents_dispatch_witness :
    1 ∈ [1]
    ∧ ∀ e ∈ runQueue [1] 4 ⟨[⟨3, 0, some 1, some 2, 8⟩, ⟨5, 1, none, none, 9⟩], 2⟩,
        e.keyId ≠ some 1 :=
  ⟨by decide,
   cancel_prevents_dispatch [1] 1 (by decide) 4
     ⟨[⟨3, 0, some 1, some 2, 8⟩, ⟨5, 1, none, none, 9⟩], 2⟩⟩

/-! ### gRPC scheduler service (server/services/scheduler_service.rs) -/

/-- Error codes surfaced across the RPC boundary (spec §6). -/
inductive ErrorCode where
  | simulationNotStarted
  | sourceNotFound
  | invalidMessage
  | invalidTime
  | invalidDeadline
  | invalidPeriod
  | invalidKey
  | missingArgument
deriving Repr, DecidableEq

/-- Modelled from the spec: `to_strictly_positive_duration`
(services/mod.rs, not under src/) — converts a wire duration (total
nanoseconds, possibly zero or negative) to a strictly positive duration,
or fails. -/
def to_strictly_positive_duration (d : Int) : Option Nat :=
  if 0 < d then some d.toNat else none

/-- Modelled from the spec: `timestamp_to_monotonic`
(services/mod.rs, not under src/) — converts a wire timestamp
`(seconds, nanos)` with `nanos < 1_000_000_000` to a monotonic time in
nanoseconds, failing on an out-of-range nanosecond field or a time
before the epoch. -/
def timestamp_to_monotonic (seconds : Int) (nanos : Nat) : Option Nat :=
  if nanos < 1000000000 ∧ 0 ≤ seconds then
    some (seconds.toNat * 1000000000 + nanos)
  else none

/-- A registered event source as seen through the type-erased
`EventSourceAny` interface: whether a serialized payload deserializes,
and the action identity its actions carry. -/
structure EventSourceModel where
  decodes : List Nat → Bool
  actId : Nat

/-- `EventSourceRegistry::get` over an association list of named sources. -/
def lookupSource : List (String × EventSourceModel) → String → Option EventSourceModel
  | [], _ => none
  | (n, src) :: rest, name => if n = name then some src else lookupSource rest name

/-- Modelled from the spec: one slot of the key registry
(server/key_registry.rs, not under src/): the stored `ActionKey` (its
cancel-flag identity), the slot generation used as `subkey2`, and an
optional expiration deadline (`none` for the eternal keys of periodic
events). -/
structure KeyRegEntry where
  generation : Nat
  expiry : Option Nat
  keyId : Nat
deriving Repr, DecidableEq

/-- Modelled from the spec: the key registry maps `(subkey1 index,
subkey2 generation)` pairs to stored action keys so stale cancellations
are detected; extraction consumes the slot. -/
structure KeyRegistry where
  slots : List (Option KeyRegEntry)
  nextGeneration : Nat
deriving Repr, DecidableEq

/-- `remove_expired_keys`: drops every key whose expiration deadline has
passed (spec §3: a key lives until cancellation or until its deadline
passes, then is reclaimed by a registry sweep). -/
def KeyRegistry.remove_expired_keys (reg : KeyRegistry) (now : Nat) : KeyRegistry :=
  { reg with
    slots := reg.slots.map fun s =>
      match s with
      | some e =>
        match e.expiry with
        | some d => if d < now then none else some e
        | none => some e
      | none => none }

/-- `insert_key` / `insert_eternal_key`: stores a key in a fresh slot
with a fresh generation and returns the `(subkey1, subkey2)` pair. -/
def KeyRegistry.insert_key (reg : KeyRegistry) (keyId : Nat) (expiry : Option Nat) :
    (Nat × Nat) × KeyRegistry :=
  ((reg.slots.length, reg.nextGeneration),
   ⟨reg.slots ++ [some ⟨reg.nextGeneration, expiry, keyId⟩], reg.nextGeneration + 1⟩)

/-- `extract_key`: looks up `(subkey1, subkey2)`; on a live slot with a
matching generation, removes the entry and returns the stored key. -/
def KeyRegistry.extract_key (reg : KeyRegistry) (k1 k2 : Nat) :
    Option (Nat × KeyRegistry) :=
  match reg.slots[k1]? with
  | some (some e) =>
    if e.generation = k2 then
      some (e.keyId, { reg with slots := reg.slots.set k1 none })
    else none
  | some none => none
  | none => none

/-- The `Started` state of the `SchedulerService`: current virtual time,
scheduler queue, event-source registry, key registry, the set cancel
flags, and the counter minting fresh action keys. -/
structure SchedulerServiceState where
  now : Nat
  queue : SchedQueue
  keyReg : KeyRegistry
  sources : List (String × EventSourceModel)
  cancelledKeys : List Nat
  nextKeyId : Nat

/-- The deadline field of a `ScheduleEventRequest`: either an absolute
timestamp or a duration relative to the current time. -/
inductive DeadlineSpec where
  | time : Int → Nat → DeadlineSpec
  | duration : Int → DeadlineSpec
deriving Repr, DecidableEq

/-- A `ScheduleEventRequest` (the protobuf message). -/
structure ScheduleEventRequest where
  source_name : String
  event : List Nat
  with_key : Bool
  period : Option Int
  deadline : Option DeadlineSpec

/-- The result field of a `ScheduleEventReply`. -/
inductive ScheduleEventResult where
  | key : Nat → Nat → ScheduleEventResult
  | empty
  | error : ErrorCode → ScheduleEventResult
deriving Repr, DecidableEq

/-- Embeds `SchedulerService::schedule_event` in the `Started` state:
validate the period (InvalidPeriod if not strictly positive), look up
the source (SourceNotFound), build the action (InvalidMessage on a
payload that does not deserialize; keyed variants mint a fresh action
key), resolve the deadline (MissingArgument / InvalidTime /
InvalidDeadline), register the key (eternal for periodic events), and
finally insert the action into the scheduler queue, with the scheduler's
DeadlineInPast rejection surfaced as InvalidDeadline. -/
def schedule_event (s : SchedulerServiceState) (req : ScheduleEventRequest) :
    ScheduleEventResult × SchedulerServiceState :=
  let periodRes : Except ErrorCode (Option Nat) :=
    match req.period with
    | none => .ok none
    | some p =>
      match to_strictly_positive_duration p with
      | some d => .ok (some d)
      | none => .error .invalidPeriod
  match periodRes with
  | .error e => (.error e, s)
  | .ok period =>
    match lookupSource s.sources req.source_name with
    | none => (.error .sourceNotFound, s)
    | some src =>
      if src.decodes req.event = false then (.error .invalidMessage, s)
      else
        let keyId : Option Nat := if req.with_key then some s.nextKeyId else none
        let nextKeyId' := if req.with_key then s.nextKeyId + 1 else s.nextKeyId
        match req.deadline with
        | none => (.error .missingArgument, s)
        | some ds =>
          let deadlineRes : Except ErrorCode Nat :=
            match ds with
            | .time secs ns =>
              match timestamp_to_monotonic secs ns with
              | some t => .ok t
              | none => .error .invalidTime
            | .duration d =>
              match to_strictly_positive_duration d with
              | some dur => .ok (s.now + dur)
              | none => .error .invalidDeadline
          match deadlineRes with
          | .error e => (.error e, s)
          | .ok deadline =>
            let regStep : Option (Nat × Nat) × KeyRegistry :=
              match keyId with
              | none => (none, s.keyReg)
              | some kid =>
                let reg1 := s.keyReg.remove_expired_keys s.now
                let (pair, reg2) :=
                  if period.isSome then reg1.insert_key kid none
                  else reg1.insert_key kid (some deadline)
                (some pair, reg2)
            if deadline < s.now then
              (.error .invalidDeadline,
               { s with keyReg := regStep.2, nextKeyId := nextKeyId' })
            else
              (match regStep.1 with
               | some (k1, k2) => .key k1 k2
               | none => .empty,
               { s with
                  queue := s.queue.schedule deadline keyId period src.actId,
                  keyReg := regStep.2,
                  nextKeyId := nextKeyId' })

/-- A `CancelEventRequest` (the protobuf message). -/
structure CancelEventRequest where
  key : Option (Nat × Nat)

/-- The result field of a `CancelEventReply`. -/
inductive CancelEventResult where
  | empty
  | error : ErrorCode → CancelEventResult
deriving Repr, DecidableEq

/-- Embeds `SchedulerService::cancel_event` in the `Started` state:
require the key argument, sweep expired keys, extract the registry entry
for `(subkey1, subkey2)` — failing with InvalidKey if absent, expired or
stale — and set the extracted key's cancel flag. -/
def cancel_event (s : SchedulerServiceState) (req : CancelEventRequest) :
    CancelEventResult × SchedulerServiceState :=
  match req.key with
  | none => (.error .missingArgument, s)
  | some (k1, k2) =>
    let reg1 := s.keyReg.remove_expired_keys s.now
    match reg1.extract_key k1 k2 with
    | none => (.error .invalidKey, { s with keyReg := reg1 })
    | some (kid, reg2) =>
      (.empty, { s with keyReg := reg2, cancelledKeys := kid :: s.cancelledKeys })

/-- C3: in `schedule_event`, a supplied period that is not strictly
positive is rejected with the InvalidPeriod error before anything else
happens — the whole service state, in particular the scheduler queue, is
unchanged — while a strictly positive period is never answered with
InvalidPeriod. -/
theorem schedule_event_invalid_period (s : SchedulerServiceState)
    (req : ScheduleEventRequest) (p : Int) (hp : req.period = some p) :
    (p ≤ 0 → schedule_event s req = (.error .invalidPeriod, s))
    ∧ (0 < p → (schedule_event s req).1 ≠ .error .invalidPeriod) := by
  constructor
  · intro hple
    have hdur : to_strictly_positive_duration p = none := by
      simp [to_strictly_positive_duration, Int.not_lt.mpr hple]
    simp [schedule_event, hp, hdur]
  · intro hpos hbad
    have hdur : to_strictly_positive_duration p = some p.toNat := by
      simp [to_strictly_positive_duration, hpos]
    simp only [schedule_event, hp, hdur] at hbad
    cases hsrc : lookupSource s.sources req.source_name with
    | none => rw [hsrc] at hbad; simp at hbad
    | some src =>
      rw [hsrc] at hbad
      dsimp only at hbad
      by_cases hdec : src.decodes req.event = false
      · rw [if_pos hdec] at hbad; simp at hbad
      · rw [if_neg hdec] at hbad
        cases hdl : req.deadline with
        | none => rw [hdl] at hbad; simp at hbad
        | some ds =>
          rw [hdl] at hbad
          dsimp only at hbad
          cases ds with
          | time secs ns =>
            dsimp only at hbad
            cases hts : timestamp_to_monotonic secs ns with
            | none => rw [hts] at hbad; simp at hbad
            | some t =>
              rw [hts] at hbad
              dsimp only at hbad
              by_cases hlt : t < s.now
              · rw [if_pos hlt] at hbad; simp at hbad
              · rw [if_neg hlt] at hbad
                by_cases hwk : req.with_key <;> simp [hwk] at hbad
          | duration d =>
            dsimp only at hbad
            cases hsd : to_strictly_positive_duration d with
            | none => rw [hsd] at hbad; simp at hbad
            | some dur =>
              rw [hsd] at hbad
              dsimp only at hbad
              by_cases hlt : s.now + dur < s.now
              · rw [if_pos hlt] at hbad; simp at hbad
              · rw [if_neg hlt] at hbad
                by_cases hwk : req.with_key <;> simp [hwk] at hbad

/-- Concrete witness: a request with period -3 is rejected with
InvalidPeriod and leaves the state unchanged. -/
theorem schedule_event_invalid_period_witness :
    (ScheduleEventRequest.mk "src" [] false (some (-3)) none).period = some (-3)
    ∧ (-3 : Int) ≤ 0
    ∧ schedule_event ⟨0, ⟨[], 0⟩, ⟨[], 0⟩, [], [], 0⟩
        (ScheduleEventRequest.mk "src" [] false (some (-3)) none)
      = (.error .invalidPeriod, ⟨0, ⟨[], 0⟩, ⟨[], 0⟩, [], [], 0⟩) :=
  ⟨rfl, by decide,
   (schedule_event_invalid_period ⟨0, ⟨[], 0⟩, ⟨[], 0⟩, [], [], 0⟩
      (ScheduleEventRequest.mk "src" [] false (some (-3)) none) (-3) rfl).1 (by decide)⟩

lemma extract_key_sets_slot_none (reg reg2 : KeyRegistry) (k1 k2 kid : Nat)
    (h : reg.extract_key k1 k2 = some (kid, reg2)) :
    reg2.slots[k1]? = some none := by
  unfold KeyRegistry.extract_key at h
  cases hs : reg.slots[k1]? with
  | none => rw [hs] at h; simp at h
  | some slot =>
    cases slot with
    | none => rw [hs] at h; simp at h
    | some e =>
      rw [hs] at h
      dsimp only at h
      by_cases hg : e.generation = k2
      · rw [if_pos hg] at h
        simp only [Option.some.injEq, Prod.mk.injEq] at h
        have hlt : k1 < reg.slots.length := by
          by_contra hge
          rw [List.getElem?_eq_none (Nat.le_of_not_lt hge)] at hs
          exact Option.noConfusion hs
        rw [← h.2]
        simpa using List.getElem?_set_eq_of_lt (none : Option KeyRegEntry) hlt
      · rw [if_neg hg] at h; simp at h

lemma remove_expired_keys_none (reg : KeyRegistry) (now k1 : Nat)
    (h : reg.slots[k1]? = some none) :
    (reg.remove_expired_keys now).slots[k1]? = some none := by
  unfold KeyRegistry.remove_expired_keys
  simp [List.getElem?_map, h]

lemma extract_key_of_slot_none (reg : KeyRegistry) (k1 k2 : Nat)
    (h : reg.slots[k1]? = some none) :
    reg.extract_key k1 k2 = none := by
  unfold KeyRegistry.extract_key
  rw [h]

/-- C10: `cancel_event` consumes the registry entry for a key: after one
successful cancellation with a given `(subkey1, subkey2)` pair, any later
`cancel_event` with the same pair — even at a different simulation time —
answers InvalidKey and sets no further cancel flag, so a key's flag can
be set through the RPC surface at most once. -/
theorem cancel_event_consumes_key (s s1 : SchedulerServiceState)
    (req : CancelEventRequest) (now' : Nat)
    (h : cancel_event s req = (.empty, s1)) :
    (cancel_event { s1 with now := now' } req).1 = .error .invalidKey
    ∧ (cancel_event { s1 with now := now' } req).2.cancelledKeys = s1.cancelledKeys := by
  unfold cancel_event at h
  cases hk : req.key with
  | none => rw [hk] at h; simp at h
  | some kk =>
    obtain ⟨k1, k2⟩ := kk
    rw [hk] at h
    dsimp only at h
    cases hx : (s.keyReg.remove_expired_keys s.now).extract_key k1 k2 with
    | none => rw [hx] at h; simp at h
    | some kr =>
      obtain ⟨kid, reg2⟩ := kr
      rw [hx] at h
      simp only [Prod.mk.injEq] at h
      have hs1 : s1.keyReg = reg2 := by rw [← h.2]
      have hslot : reg2.slots[k1]? = some none :=
        extract_key_sets_slot_none _ _ _ _ _ hx
      have hslot' : (s1.keyReg.remove_expired_keys now').slots[k1]? = some none := by
        rw [hs1]; exact remove_expired_keys_none reg2 now' k1 hslot
      have hx2 : (s1.keyReg.remove_expired_keys now').extract_key k1 k2 = none :=
        extract_key_of_slot_none _ k1 k2 hslot'
      constructor
      · unfold cancel_event
        rw [hk]
        simp [hx2]
      · unfold cancel_event
        rw [hk]
        simp [hx2]

/-- Concrete witness: cancelling the key `(0, 0)` succeeds once and then
fails with InvalidKey, leaving the set of cancelled flags unchanged. -/
theorem cancel_event_consumes_key_witness :
    cancel_event ⟨0, ⟨[], 0⟩, ⟨[some ⟨0, none, 7⟩], 1⟩, [], [], 1⟩ ⟨some (0, 0)⟩
      = (.empty, ⟨0, ⟨[], 0⟩, ⟨[none], 1⟩, [], [7], 1⟩)
    ∧ (cancel_event ⟨5, ⟨[], 0⟩, ⟨[none], 1⟩, [], [7], 1⟩ ⟨some (0, 0)⟩).1
        = .error .invalidKey
    ∧ (cancel_event ⟨5, ⟨[], 0⟩, ⟨[none], 1⟩, [], [7], 1⟩ ⟨some (0, 0)⟩).2.cancelledKeys
        = [7] :=
  ⟨rfl,
   (cancel_event_consumes_key ⟨0, ⟨[], 0⟩, ⟨[some ⟨0, none, 7⟩], 1⟩, [], [], 1⟩
      ⟨0, ⟨[], 0⟩, ⟨[none], 1⟩, [], [7], 1⟩ ⟨some (0, 0)⟩ 5 rfl).1,
   (cancel_event_consumes_key ⟨0, ⟨[], 0⟩, ⟨[some ⟨0, none, 7⟩], 1⟩, [], [], 1⟩
      ⟨0, ⟨[], 0⟩, ⟨[none], 1⟩, [], [7], 1⟩ ⟨some (0, 0)⟩ 5 rfl).2⟩

/-! ### Simulation loop (spec §4.4; the simulation sources are absent) -/

/-- Execution and scheduling errors of the step family (spec §7). -/
inductive ExecError where
  | noEventScheduled
  | deadlineInPast
deriving Repr, DecidableEq

/-- Modelled from the spec: the simulation state — the current virtual
time, the scheduler queue and the set cancel flags. -/
structure SimState where
  now : Nat
  queue : SchedQueue
  cancelled : List Nat
deriving Repr, DecidableEq

/-- Re-insertion of a dispatched periodic entry at
`deadline + period`, with a fresh insertion sequence and the same
cancel flag; anonymous one-shot entries leave the queue unchanged. -/
def reinsert (q : SchedQueue) (e : SchedEntry) : SchedQueue :=
  match e.period with
  | some p => q.schedule (e.deadline + p) e.keyId (some p) e.actId
  | none => q

/-- Modelled from the spec: `step()` — advance the virtual time to the
deadline of the next queued action and dispatch the whole epoch: pop
every entry at that deadline, drop the cancelled ones, run the rest and
re-insert the periodic ones.  Fails with NoEventScheduled on an empty
queue.  Returns the dispatched entries. -/
def SimState.step (s : SimState) : Except ExecError (List SchedEntry × SimState) :=
  match s.queue.entries with
  | [] => .error .noEventScheduled
  | e0 :: _ =>
    let d := e0.deadline
    let live := (s.queue.entries.takeWhile (fun e => e.deadline == d)).filter
        (fun e => !(keyCancelled s.cancelled e.keyId))
    .ok (live,
      { s with
          now := d,
          queue := live.foldl reinsert
            ⟨s.queue.entries.dropWhile (fun e => e.deadline == d), s.queue.nextSeq⟩ })

/-- The iteration underlying `step_until`: keep calling `step()` while
the queue is non-empty and its next deadline does not exceed the target,
accumulating the dispatched entries.  The fuel argument bounds the number
of iterations; `step_until` passes enough fuel for the loop to run to
completion (each step strictly increases the minimum deadline). -/
def step_until_aux (target : Nat) : Nat → SimState → List SchedEntry × SimState
  | 0, s => ([], s)
  | fuel + 1, s =>
    match s.queue.entries with
    | [] => ([], s)
    | e0 :: _ =>
      if e0.deadline ≤ target then
        match s.step with
        | .ok (ds, s') =>
          let r := step_until_aux target fuel s'
          (ds ++ r.1, r.2)
        | .error _ => ([], s)
      else ([], s)

/-- Modelled from the spec: `step_until(target)` — fails with
DeadlineInPast if `target <= current_time`; otherwise behaves as calling
`step()` repeatedly until the next deadline exceeds `target`, finally
setting the current time to `target`. -/
def SimState.step_until (s : SimState) (target : Nat) :
    Except ExecError (List SchedEntry × SimState) :=
  if target ≤ s.now then .error .deadlineInPast
  else
    let r := step_until_aux target (target + 1) s
    .ok (r.1, { r.2 with now := target })

/-- Deadline ordering of queue entries. -/
def dLe (a b : SchedEntry) : Prop := a.deadline ≤ b.deadline

/-- Well-formedness of a scheduler queue as maintained by the schedule
operations: entries sorted by deadline and periodic entries carrying a
strictly positive period. -/
def QueueWF (q : SchedQueue) : Prop :=
  List.Pairwise dLe q.entries ∧ ∀ e ∈ q.entries, ∀ p, e.period = some p → 0 < p

lemma entryLe_deadline_le {a b : SchedEntry} (h : entryLe a b = true) :
    a.deadline ≤ b.deadline := by
  unfold entryLe at h
  simp only [Bool.or_eq_true, Bool.and_eq_true, decide_eq_true_eq, beq_iff_eq] at h
  rcases h with h | h
  · exact Nat.le_of_lt h
  · exact Nat.le_of_eq h.1

lemma not_entryLe_deadline_le {a b : SchedEntry} (h : entryLe a b = false) :
    b.deadline ≤ a.deadline := by
  unfold entryLe at h
  simp only [Bool.or_eq_false_iff, decide_eq_false_iff_not] at h
  exact Nat.le_of_not_lt h.1

lemma mem_insertEntry (e x : SchedEntry) :
    ∀ l, x ∈ insertEntry e l ↔ x = e ∨ x ∈ l := by
  intro l
  induction l with
  | nil => simp [insertEntry]
  | cons f rest ih =>
    by_cases h : entryLe e f
    · simp [insertEntry, h]
    · simp only [insertEntry, h, Bool.false_eq_true, if_false, List.mem_cons, ih]
      tauto

lemma insertEntry_pairwise (e : SchedEntry) :
    ∀ l, List.Pairwise dLe l → List.Pairwise dLe (insertEntry e l) := by
  intro l
  induction l with
  | nil => intro _; simp [insertEntry, List.pairwise_singleton]
  | cons f rest ih =>
    intro hp
    by_cases h : entryLe e f
    · simp only [insertEntry, h, if_true]
      refine List.Pairwise.cons ?_ hp
      intro y hy
      rcases List.mem_cons.mp hy with rfl | hy'
      · exact entryLe_deadline_le h
      · exact Nat.le_trans (entryLe_deadline_le h) (List.rel_of_pairwise_cons hp hy')
    · simp only [insertEntry, h, Bool.false_eq_true, if_false]
      refine List.Pairwise.cons ?_ (ih hp.of_cons)
      intro y hy
      rcases (mem_insertEntry e y rest).mp hy with rfl | hy'
      · exact not_entryLe_deadline_le (Bool.eq_false_iff.mpr h)
      · exact List.rel_of_pairwise_cons hp hy'

lemma dropWhile_deadline_gt (d : Nat) :
    ∀ (l : List SchedEntry), List.Pairwise dLe l → (∀ x ∈ l, d ≤ x.deadline) →
      ∀ x ∈ l.dropWhile (fun e => e.deadline == d), d < x.deadline := by
  intro l
  induction l with
  | nil => intro _ _ x hx; simp at hx
  | cons f rest ih =>
    intro hp hge x hx
    rw [List.dropWhile_cons] at hx
    by_cases hf : f.deadline = d
    · rw [if_pos (by simpa using hf)] at hx
      exact ih hp.of_cons (fun y hy => hge y (List.mem_cons_of_mem f hy)) x hx
    · rw [if_neg (by simpa using hf)] at hx
      rcases List.mem_cons.mp hx with rfl | hy
      · exact Nat.lt_of_le_of_ne (hge x (List.mem_cons_self _ _)) (Ne.symm hf)
      · exact Nat.lt_of_lt_of_le
          (Nat.lt_of_le_of_ne (hge f (List.mem_cons_self _ _)) (Ne.symm hf))
          (List.rel_of_pairwise_cons hp hy)

lemma foldl_reinsert_invariant (d : Nat) :
    ∀ (live : List SchedEntry) (q : SchedQueue),
      List.Pairwise dLe q.entries →
      (∀ x ∈ q.entries, d < x.deadline) →
      (∀ x ∈ q.entries, ∀ p, x.period = some p → 0 < p) →
      (∀ e ∈ live, e.deadline = d) →
      (∀ e ∈ live, ∀ p, e.period = some p → 0 < p) →
      List.Pairwise dLe (live.foldl reinsert q).entries
      ∧ (∀ x ∈ (live.foldl reinsert q).entries, d < x.deadline)
      ∧ (∀ x ∈ (live.foldl reinsert q).entries, ∀ p, x.period = some p → 0 < p) := by
  intro live
  induction live with
  | nil => intro q h1 h2 h3 _ _; exact ⟨h1, h2, h3⟩
  | cons e live ih =>
    intro q h1 h2 h3 hd hp
    have hd' : ∀ x ∈ live, x.deadline = d := fun x hx => hd x (List.mem_cons_of_mem e hx)
    have hp' : ∀ x ∈ live, ∀ p, x.period = some p → 0 < p :=
      fun x hx => hp x (List.mem_cons_of_mem e hx)
    simp only [List.foldl_cons]
    cases hper : e.period with
    | none =>
      have hq : reinsert q e = q := by simp [reinsert, hper]
      rw [hq]
      exact ih q h1 h2 h3 hd' hp'
    | some p =>
      have hq : reinsert q e = q.schedule (e.deadline + p) e.keyId (some p) e.actId := by
        simp [reinsert, hper]
      have hppos : 0 < p := hp e (List.mem_cons_self _ _) p hper
      have hed : e.deadline = d := hd e (List.mem_cons_self _ _)
      rw [hq]
      refine ih _ ?_ ?_ ?_ hd' hp'
      · exact insertEntry_pairwise _ _ h1
      · intro x hx
        rcases (mem_insertEntry _ x _).mp hx with rfl | hx'
        · simp only
          omega
        · exact h2 x hx'
      · intro x hx pp hpp
        rcases (mem_insertEntry _ x _).mp hx with rfl | hx'
        · simp only at hpp
          cases hpp
          exact hppos
        · exact h3 x hx' pp hpp

lemma step_invariant (s : SimState) (ds : List SchedEntry) (s' : SimState)
    (hwf : QueueWF s.queue) (h : s.step = .ok (ds, s')) :
    QueueWF s'.queue ∧ (∀ x ∈ s'.queue.entries, s'.now < x.deadline)
    ∧ (∀ x ∈ ds, x.deadline = s'.now) := by
  obtain ⟨now, ⟨ents, ns⟩, canc⟩ := s
  cases ents with
  | nil => simp [SimState.step] at h
  | cons e0 tail =>
    simp only [SimState.step] at h
    rw [Except.ok.injEq, Prod.mk.injEq] at h
    obtain ⟨hds, hs'⟩ := h
    obtain ⟨hpw, hper⟩ := hwf
    simp only at hpw hper
    have hge : ∀ x ∈ e0 :: tail, e0.deadline ≤ x.deadline := by
      intro x hx
      rcases List.mem_cons.mp hx with rfl | hx'
      · exact Nat.le_refl _
      · exact List.rel_of_pairwise_cons hpw hx'
    have hbase1 : List.Pairwise dLe
        ((e0 :: tail).dropWhile (fun e => e.deadline == e0.deadline)) :=
      hpw.sublist (List.dropWhile_sublist _)
    have hbase2 : ∀ x ∈ (e0 :: tail).dropWhile (fun e => e.deadline == e0.deadline),
        e0.deadline < x.deadline :=
      dropWhile_deadline_gt e0.deadline (e0 :: tail) hpw hge
    have hbase3 : ∀ x ∈ (e0 :: tail).dropWhile (fun e => e.deadline == e0.deadline),
        ∀ p, x.period = some p → 0 < p :=
      fun x hx => hper x ((List.dropWhile_sublist _).subset hx)
    have hlive_mem : ∀ e ∈ ((e0 :: tail).takeWhile
          (fun e => e.deadline == e0.deadline)).filter
          (fun e => !(keyCancelled canc e.keyId)), e ∈ e0 :: tail :=
      fun e he => (List.takeWhile_sublist _).subset (List.mem_of_mem_filter he)
    have hlive_d : ∀ e ∈ ((e0 :: tail).takeWhile
          (fun e => e.deadline == e0.deadline)).filter
          (fun e => !(keyCancelled canc e.keyId)), e.deadline = e0.deadline := by
      intro e he
      have := List.mem_takeWhile_imp (List.mem_of_mem_filter he)
      simpa using this
    have hlive_p : ∀ e ∈ ((e0 :: tail).takeWhile
          (fun e => e.deadline == e0.deadline)).filter
          (fun e => !(keyCancelled canc e.keyId)), ∀ p, e.period = some p → 0 < p :=
      fun e he => hper e (hlive_mem e he)
    have hfold := foldl_reinsert_invariant e0.deadline _
      (⟨(e0 :: tail).dropWhile (fun e => e.deadline == e0.deadline), ns⟩ : SchedQueue)
      hbase1 hbase2 hbase3 hlive_d hlive_p
    rw [← hs']
    refine ⟨⟨hfold.1, hfold.2.2⟩, hfold.2.1, ?_⟩
    intro x hx
    rw [← hds] at hx
    exact hlive_d x hx

lemma step_until_aux_dispatch_le (target : Nat) :
    ∀ (fuel : Nat) (s : SimState),
      ∀ e ∈ (step_until_aux target fuel s).1, e.deadline ≤ target := by
  intro fuel
  induction fuel with
  | zero => intro s e he; simp [step_until_aux] at he
  | succ fuel ih =>
    intro s e he
    obtain ⟨now, ⟨ents, ns⟩, canc⟩ := s
    cases ents with
    | nil => simp [step_until_aux] at he
    | cons e0 tail =>
      rw [step_until_aux] at he
      dsimp only at he
      by_cases hle : e0.deadline ≤ target
      · rw [if_pos hle] at he
        simp only [SimState.step] at he
        rcases List.mem_append.mp he with h1 | h2
        · have := List.mem_takeWhile_imp (List.mem_of_mem_filter h1)
          have heq : e.deadline = e0.deadline := by simpa using this
          omega
        · exact ih _ e h2
      · rw [if_neg hle] at he
        simp at he

lemma step_until_aux_clears (target : Nat) :
    ∀ (fuel : Nat) (s : SimState),
      QueueWF s.queue →
      (∀ e ∈ s.queue.entries, target < e.deadline + fuel) →
      ∀ e ∈ (step_until_aux target fuel s).2.queue.entries, target < e.deadline := by
  intro fuel
  induction fuel with
  | zero =>
    intro s _ hf e he
    simp only [step_until_aux] at he
    have := hf e he
    omega
  | succ fuel ih =>
    intro s hwf hf e he
    rcases hents : s.queue.entries with _ | ⟨e0, tail⟩
    · rw [step_until_aux] at he
      rw [hents] at he
      dsimp only at he
      rw [hents] at he
      simp at he
    · rw [step_until_aux] at he
      rw [hents] at he
      dsimp only at he
      by_cases hle : e0.deadline ≤ target
      · rw [if_pos hle] at he
        cases hstep : s.step with
        | error err =>
          exfalso
          simp only [SimState.step, hents] at hstep
          exact Except.noConfusion hstep
        | ok r =>
          obtain ⟨ds1, s1⟩ := r
          rw [hstep] at he
          dsimp only at he
          have hinv := step_invariant s ds1 s1 hwf hstep
          have hnow : s1.now = e0.deadline := by
            simp only [SimState.step, hents] at hstep
            rw [Except.ok.injEq, Prod.mk.injEq] at hstep
            rw [← hstep.2]
          refine ih s1 hinv.1 ?_ e he
          intro x hx
          have hgt := hinv.2.1 x hx
          rw [hnow] at hgt
          have := hf e0 (by rw [hents]; exact List.mem_cons_self _ _)
          omega
      · rw [if_neg hle] at he
        dsimp only at he
        rw [hents] at he
        rcases List.mem_cons.mp he with rfl | hy
        · omega
        · have := List.rel_of_pairwise_cons (hents ▸ hwf.1) hy
          have : e0.deadline ≤ e.deadline := this
          omega

/-- C5: `step_until(target)` fails with DeadlineInPast exactly when
`target <= current_time`; otherwise it succeeds — it iterates `step()`
(by construction of `step_until_aux`) over every queued epoch whose
deadline does not exceed the target, so every dispatched entry has a
deadline at most `target` and (for a well-formed queue) every entry left
in the queue has a deadline strictly beyond `target` — and the final
simulation time equals `target`, whether or not an event was scheduled
at exactly that time. -/
theorem step_until_semantics (s : SimState) (target : Nat) :
    (s.step_until target = .error .deadlineInPast ↔ target ≤ s.now)
    ∧ (s.now < target →
        ∃ ds s', s.step_until target = .ok (ds, s')
          ∧ s'.now = target
          ∧ (∀ e ∈ ds, e.deadline ≤ target)
          ∧ (QueueWF s.queue → ∀ e ∈ s'.queue.entries, target < e.deadline)) := by
  constructor
  · constructor
    · intro h
      by_contra hn
      simp [SimState.step_until, hn] at h
    · intro h
      simp [SimState.step_until, h]
  · intro h
    have hn : ¬ target ≤ s.now := Nat.not_le.mpr h
    refine ⟨(step_until_aux target (target + 1) s).1,
      { (step_until_aux target (target + 1) s).2 with now := target }, ?_, rfl, ?_, ?_⟩
    · simp [SimState.step_until, hn]
    · exact step_until_aux_dispatch_le target (target + 1) s
    · intro hwf e he
      refine step_until_aux_clears target (target + 1) s hwf ?_ e he
      intro x _
      omega

/-- Concrete witness: from time 0 with a single event at 5,
`step_until 7` succeeds and ends exactly at time 7. -/
theorem step_until_semantics_witness :
    (0:Nat) < 7
    ∧ ∃ ds s', SimState.step_until ⟨0, ⟨[⟨5, 0, none, none, 1⟩], 1⟩, []⟩ 7 = .ok (ds, s')
        ∧ s'.now = 7
        ∧ (∀ e ∈ ds, e.deadline ≤ 7)
        ∧ (QueueWF (⟨[⟨5, 0, none, none, 1⟩], 1⟩ : SchedQueue) →
            ∀ e ∈ s'.queue.entries, 7 < e.deadline) :=
  ⟨by decide,
   (step_until_semantics ⟨0, ⟨[⟨5, 0, none, none, 1⟩], 1⟩, []⟩ 7).2 (by decide)⟩

end Nexosim
